import Mathlib

/-!
Verification development for the `sloggcloud` package (p1ass/go-pkg): a
`slog.Handler` that renders log records into a Google-Cloud-Logging
compatible JSON object.

The Go source (`src/sloggcloud/handler.go`, `src/sloggcloud/options.go`) is
shallowly embedded below:

* `JValue`/`JObj` model the `map[string]interface{}` trees that the handler
  builds and hands to `encoding/json`; a Go map is represented as an
  association list with distinct keys, and map assignment `m[k] = v` is
  modelled by `setk` (replace the binding in place, else append).
* `SValue` models `slog.Value` (one constructor per `slog.Kind`);
  `attrValue` is the value-conversion function of `handler.go`.
* `Handler`, `Enabled`, `WithAttrs`, `WithGroup`, `levelToSeverity`,
  `addAttr` and `Handle` are direct translations of the corresponding
  Go declarations.  `emitted` is the JSON object that the inner
  `slog.NewJSONHandler` writes for one record: its built-in `time`,
  `level` (rewritten to `severity` by the `ReplaceAttr` callback) and
  `msg` keys followed by the attribute slice that `Handle` assembles.
* A second, heap-aware model (`Mem`, `GoSlice`, `goAppend`,
  `WithAttrsRef`) captures Go slice/append aliasing semantics, which the
  purely functional `WithAttrs` abstracts away; it is used to examine the
  interference behaviour of derived handlers.

Machine integers: `slog.Level` is an `int`; levels are modelled as `Int`
(no arithmetic near overflow occurs anywhere in the source).  `float64`
payloads are carried opaquely as bit patterns (`Nat`); the handler never
computes with them, it only passes them through.
-/

namespace Sloggcloud

/-- A JSON-marshallable Go value (`interface{}` holding `bool`,
`int64`, `uint64`, `float64`, `string`, or `map[string]interface{}`),
as produced by `attrValue` and marshalled by the inner JSON handler.
`jFloat` carries the `float64` bit pattern opaquely. -/
inductive JValue where
  | jBool (b : Bool)
  | jInt (i : Int)
  | jNat (n : Nat)
  | jFloat (bits : Nat)
  | jStr (s : String)
  | jObj (entries : List (String × JValue))

/-- A Go `map[string]interface{}`, represented as an association list with
distinct keys.  Go maps are unordered; all operations below touch bindings
only through their keys, so the list order is a representation artefact. -/
abbrev JObj := List (String × JValue)

/-- Go map assignment `m[k] = v`: replace the binding for `k` in place if
present, otherwise add it. -/
def setk : JObj → String → JValue → JObj
  | [], k, v => [(k, v)]
  | (k', v') :: rest, k, v =>
      if k' = k then (k, v) :: rest else (k', v') :: setk rest k v

/-- Go map read `m[k]`. -/
def lookupJ : JObj → String → Option JValue
  | [], _ => none
  | (k', v) :: rest, k => if k' = k then some v else lookupJ rest k

/-- Keys of a map. -/
def keysJ (m : JObj) : List String := m.map Prod.fst

/-- Follow a path of keys through nested objects; `lookupPath m [k1, k2]`
is `m[k1][k2]` when `m[k1]` is an object, and `none` when a key is absent
or an intermediate value is not an object. -/
def lookupPath : JObj → List String → Option JValue
  | m, [] => some (.jObj m)
  | m, [k] => lookupJ m k
  | m, k :: rest =>
      match lookupJ m k with
      | some (.jObj o) => lookupPath o rest
      | _ => none

/-- `slog.Value`, one constructor per `slog.Kind`.

* `vFloat64` carries the bit pattern opaquely (the handler only passes
  floats through).
* `vTime` carries the time value by its RFC-3339 nanosecond rendering:
  the source formats times with `Format(time.RFC3339Nano)`, standard
  library code outside this repository, so a time value is represented
  by that canonical string.
* `vLogValuer` carries the value the lazy `LogValuer` resolves to
  (`v.LogValuer().LogValue()` in the source).
* `vNil` is the zero `slog.Value` (kind `KindAny` holding `nil`); `vAny`
  is any other `KindAny` payload, carried by its `fmt.Sprintf("%v")`
  rendering. -/
inductive SValue where
  | vBool (b : Bool)
  | vInt64 (i : Int)
  | vUint64 (n : Nat)
  | vFloat64 (bits : Nat)
  | vString (s : String)
  | vDuration (ns : Int)
  | vTime (rfc3339 : String)
  | vGroup (attrs : List (String × SValue))
  | vLogValuer (resolved : SValue)
  | vNil
  | vAny (text : String)

instance : Inhabited SValue := ⟨.vNil⟩

/-- A `slog.Attr` is a key paired with a value. -/
abbrev Attr := String × SValue

/-- Whether a `slog.Value` is the zero value (kind `KindAny` holding
`nil`). -/
def isNilValue : SValue → Bool
  | .vNil => true
  | _ => false

/-- `attr.Equal(slog.Attr{})`: the zero attribute has an empty key and the
zero `slog.Value`. -/
def attrIsZero (a : Attr) : Bool := a.1 == "" && isNilValue a.2

/-- Modelled from the spec: the canonical textual form of a duration
("1.5s"-style).  The source renders durations with
`time.Duration.String()`, standard-library code that is not part of this
repository; here a duration of `ns` nanoseconds is rendered as seconds
with the fractional part trimmed of trailing zeros. -/
def durationString (ns : Int) : String :=
  let n := ns.natAbs
  let sign := if ns < 0 then "-" else ""
  let whole := n / 1000000000
  let frac := n % 1000000000
  if frac = 0 then sign ++ toString whole ++ "s"
  else
    let ds := Nat.toDigits 10 frac
    let padded := List.replicate (9 - ds.length) '0' ++ ds
    let trimmed := (padded.reverse.dropWhile (· = '0')).reverse
    sign ++ toString whole ++ "." ++ String.mk trimmed ++ "s"

mutual

/-- `attrValue` from `handler.go`: convert a `slog.Value` to a
JSON-marshallable Go value.  The `KindGroup` case builds a
`map[string]interface{}` from the group's members (`m[attr.Key] =
attrValue(attr.Value)` in source order); the `KindLogValuer` case resolves
the lazy value and converts the result; the `default` case renders the
value with `fmt.Sprintf("%v", v)` (the carried text for `vAny`, and
`"<nil>"` for the zero value). -/
def attrValue : SValue → JValue
  | .vBool b => .jBool b
  | .vInt64 i => .jInt i
  | .vUint64 n => .jNat n
  | .vFloat64 bits => .jFloat bits
  | .vString s => .jStr s
  | .vDuration ns => .jStr (durationString ns)
  | .vTime rfc3339 => .jStr rfc3339
  | .vGroup attrs => .jObj (groupObj [] attrs)
  | .vLogValuer v => attrValue v
  | .vNil => .jStr "<nil>"
  | .vAny text => .jStr text

/-- The map-building loop of the `KindGroup` case of `attrValue`. -/
def groupObj : JObj → List (String × SValue) → JObj
  | m, [] => m
  | m, (k, v) :: rest => groupObj (setk m k (attrValue v)) rest

end

/-- The create-or-replace step of `addAttr` at one group name: reuse the
existing nested map if the current binding is a map, and start from a
fresh empty map otherwise (both for missing bindings and for bindings
holding a non-map). -/
def childObj (m : JObj) (g : String) : JObj :=
  match lookupJ m g with
  | some (.jObj o) => o
  | _ => []

/-- The recursive walk of `addAttr`: descend the group path from outermost
to innermost and bind the converted value at the attribute's key in the
innermost map.  The Go loop treats `groups[:len(groups)-1]` and the last
group with the same create-or-replace step (`childObj`), which this
uniform recursion mirrors; Go mutates the nested maps in place, modelled
here by re-binding the child at each level on the way back up. -/
def addAttrPath : JObj → List String → String → JValue → JObj
  | m, [], k, v => setk m k v
  | m, g :: gs, k, v => setk m g (.jObj (addAttrPath (childObj m g) gs k v))

/-- `addAttr` from `handler.go`: skip the zero attribute, otherwise insert
the converted value at the group path. -/
def addAttr (m : JObj) (groups : List String) (a : Attr) : JObj :=
  if attrIsZero a then m else addAttrPath m groups a.1 (attrValue a.2)

/-- `options` from `options.go`. -/
structure Options where
  level : Int
  addSource : Bool
  addTraceInfo : Bool
  projectID : String
  program : String
  deriving DecidableEq

/-- `slog.LevelDebug`. -/
def levelDebug : Int := -4
/-- `slog.LevelInfo`. -/
def levelInfo : Int := 0
/-- `slog.LevelWarn`. -/
def levelWarn : Int := 4
/-- `slog.LevelError`. -/
def levelError : Int := 8

/-- `defaultOptions` from `options.go`. -/
def defaultOptions : Options :=
  { level := levelInfo
    addSource := false
    addTraceInfo := true
    projectID := ""
    program := "" }

/-- `Handler` from `handler.go`.  The writer `w` is not part of the state
model: what would be written to it is returned by `Handle` below.  The
`attrs` and `groups` fields here hold the element sequences the handler
observes through its slice headers; slice aliasing is modelled separately
by `WithAttrsRef`/`WithGroupRef`. -/
structure Handler where
  opts : Options
  attrs : List Attr
  groups : List String
  program : String

/-- `New` from `handler.go` (with the option list already folded into an
`Options` value). -/
def New (o : Options) : Handler :=
  { opts := o, attrs := [], groups := [], program := o.program }

/-- `Enabled` from `handler.go`: `level >= h.opts.level`. -/
def Enabled (h : Handler) (level : Int) : Bool :=
  decide (h.opts.level ≤ level)

/-- `WithAttrs` from `handler.go`: empty argument returns the receiver,
otherwise a copy with the attributes appended. -/
def WithAttrs (h : Handler) (attrs : List Attr) : Handler :=
  if attrs.length = 0 then h else { h with attrs := h.attrs ++ attrs }

/-- `WithGroup` from `handler.go`: empty name returns the receiver,
otherwise a copy with the group name appended. -/
def WithGroup (h : Handler) (name : String) : Handler :=
  if name = "" then h else { h with groups := h.groups ++ [name] }

/-- `levelToSeverity` from `handler.go`. -/
def levelToSeverity (level : Int) : String :=
  if level ≥ levelError then "ERROR"
  else if level ≥ levelWarn ∧ level < levelError then "WARNING"
  else if level ≥ levelInfo ∧ level < levelWarn then "INFO"
  else "DEBUG"

/-- A resolved `runtime.Frame` (file, line, function). -/
structure Frame where
  file : String
  line : Int
  function : String
  deriving DecidableEq

/-- A `slog.Record` as consumed by `Handle`: its timestamp is carried by
the RFC-3339 nanosecond string the standard JSON handler renders for it;
`pc` is `none` when the record's program counter is `0` (no resolvable
frame) and carries the resolved frame otherwise. -/
structure Record where
  time : String
  level : Int
  msg : String
  pc : Option Frame
  attrs : List Attr

/-- An OpenTelemetry `trace.SpanContext`: a 16-byte trace ID and an 8-byte
span ID (bytes as `Nat`s below 256). -/
structure SpanContext where
  traceID : List Nat
  spanID : List Nat
  deriving DecidableEq

/-- Modelled from the spec: the tracing library's span-validity test
(`span.SpanContext().IsValid()`, external code) — a span context is valid
when neither its trace ID nor its span ID is all-zero. -/
def spanCtxIsValid (sc : SpanContext) : Bool :=
  sc.traceID.any (fun b => b ≠ 0) && sc.spanID.any (fun b => b ≠ 0)

/-- Whether the execution context carries a valid span
(`trace.SpanFromContext` yields a no-op span with an invalid context when
the context carries none). -/
def contextSpanValid : Option SpanContext → Bool
  | none => false
  | some sc => spanCtxIsValid sc

/-- Modelled from the spec: canonical lowercase-hex rendering of one byte
(`TraceID.String()`/`SpanID.String()` hex-encode their bytes, external
code). -/
def byteHex (b : Nat) : String :=
  let ds := Nat.toDigits 16 b
  String.mk (List.replicate (2 - ds.length) '0' ++ ds)

/-- Canonical lowercase-hex rendering of a byte sequence. -/
def bytesHex (bs : List Nat) : String :=
  String.join (bs.map byteHex)

/-- The trace string of `Handle`: `projects/<projectID>/traces/<hex>` when
`projectID` is non-empty, the bare hex trace ID otherwise. -/
def formatTraceStr (projectID : String) (sc : SpanContext) : String :=
  if projectID ≠ "" then
    "projects/" ++ projectID ++ "/traces/" ++ bytesHex sc.traceID
  else bytesHex sc.traceID

/-- The source-location attribute appended by `Handle` (lines 62-77):
present when `addSource` is set and the record has a resolvable frame. -/
def sourceAttrs (h : Handler) (r : Record) : JObj :=
  if h.opts.addSource then
    match r.pc with
    | some f =>
        [("logging.googleapis.com/sourceLocation",
          .jObj [("file", .jStr f.file), ("line", .jInt f.line),
                 ("function", .jStr f.function)])]
    | none => []
  else []

/-- The trace attributes appended by `Handle` (lines 79-99): present when
`addTraceInfo` is set and the context carries a valid span. -/
def traceAttrs (h : Handler) (ctx : Option SpanContext) : JObj :=
  if h.opts.addTraceInfo then
    match ctx with
    | some sc =>
        if spanCtxIsValid sc then
          [("logging.googleapis.com/trace", .jStr (formatTraceStr h.opts.projectID sc)),
           ("logging.googleapis.com/spanId", .jStr (bytesHex sc.spanID))]
        else []
    | none => []
  else []

/-- The map built from the handler's persistent attributes (lines 103-106):
each attribute inserted at the handler's full group path. -/
def persistentMap (h : Handler) : JObj :=
  h.attrs.foldl (fun m a => addAttr m h.groups a) []

/-- The map built from the record's own attributes (lines 111-115): each
attribute inserted at the handler's full group path. -/
def recordMap (h : Handler) (r : Record) : JObj :=
  r.attrs.foldl (fun m a => addAttr m h.groups a) []

/-- The merge loop of lines 123-127: copy each top-level binding of the
record map into the existing map (`existingAttrs[k] = v`). -/
def mergeInto (p : JObj) (m : JObj) : JObj :=
  m.foldl (fun acc kv => setk acc kv.1 kv.2) p

/-- Lines 121-128 of `Handle`: take the last element of the attribute
slice, and if it is an `attributes` entry holding a map, merge the record
map into it. -/
def setLastAttributes : JObj → JObj → JObj
  | [], _ => []
  | [(k, v)], m =>
      if k = "attributes" then
        match v with
        | .jObj existing => [(k, .jObj (mergeInto existing m))]
        | _ => [(k, v)]
      else [(k, v)]
  | x :: y :: rest, m => x :: setLastAttributes (y :: rest) m

/-- The attribute slice `Handle` assembles (lines 59-130): source location,
trace attributes, then — when the handler carries persistent attributes or
groups — an `attributes` entry holding the persistent map; record
attributes are wrapped in their own `attributes` entry when the handler
carries neither persistent attributes nor groups, and are otherwise merged
into the last entry. -/
def handleAttrs (h : Handler) (ctx : Option SpanContext) (r : Record) : JObj :=
  let base := sourceAttrs h r ++ traceAttrs h ctx
  let withPersistent :=
    if 0 < h.attrs.length ∨ 0 < h.groups.length then
      base ++ [("attributes", .jObj (persistentMap h))]
    else base
  let recM := recordMap h r
  if 0 < recM.length then
    if h.attrs.length = 0 ∧ h.groups.length = 0 then
      withPersistent ++ [("attributes", .jObj recM)]
    else setLastAttributes withPersistent recM
  else withPersistent

/-- The JSON object the inner `slog.NewJSONHandler` writes for one record:
its built-in `time` and `msg` keys, the built-in `level` key rewritten to
`severity` by the `ReplaceAttr` callback, then the assembled attribute
slice. -/
def emitted (h : Handler) (ctx : Option SpanContext) (r : Record) : JObj :=
  [("time", .jStr r.time),
   ("severity", .jStr (levelToSeverity r.level)),
   ("msg", .jStr r.msg)]
  ++ handleAttrs h ctx r

/-- `Handle` from `handler.go`.  `writeResult` is the outcome of the
underlying writer's `Write` call; the source never observes it:
`slog.Logger.LogAttrs` discards the inner handler's error, and `Handle`
ends with `return nil`.  The first component is what is written to `w`:
`none` when the inner JSON handler's level gate (`Level: h.opts.level`)
drops the record, otherwise the emitted object.  The second component is
the error `Handle` returns. -/
def Handle (h : Handler) (ctx : Option SpanContext) (r : Record)
    (writeResult : Except String Unit) : Option JObj × Option String :=
  (if h.opts.level ≤ r.level then some (emitted h ctx r) else none, none)

/-!
### Go slice semantics of the derivation operations

`WithAttrs` executes `h2 := *h; h2.attrs = append(h2.attrs, attrs...)`
(and `WithGroup` the same on `groups`).  The struct copy shares the slice
header, and `append` writes into the shared backing array whenever spare
capacity is available, so the functional model above is only the
per-handler view.  The model below makes the backing arrays explicit:
`Mem` is the set of allocated arrays, a `GoSlice` is a header (array id,
length, capacity), and `goAppend` is `append` — writing in place when the
elements fit in the capacity, and otherwise allocating a fresh array whose
capacity follows the Go runtime's growth rule for small slices (double the
old capacity, or the needed length when that is larger or the slice was
empty; the runtime's size-class rounding does not change the capacities
1, 2, 4 arising below).  Unwritten cells hold the zero `slog.Attr`.
-/

/-- A Go slice header: backing-array id, length and capacity.  Every slice
in the source grows from `nil` by `append`, so offsets are always zero and
are omitted. -/
structure GoSlice where
  arrId : Nat
  len : Nat
  cap : Nat
  deriving DecidableEq

/-- The allocated backing arrays, indexed by id. -/
structure Mem (α : Type) where
  arrays : List (List α)

/-- The `nil` slice.  Its capacity is zero, so `append` never writes
through it and the (arbitrary) array id is never read beyond length 0. -/
def nilSlice : GoSlice := ⟨0, 0, 0⟩

/-- The elements a slice header observes. -/
def sliceContents {α : Type} (mem : Mem α) (s : GoSlice) : List α :=
  (mem.arrays.getD s.arrId []).take s.len

/-- Write one cell of a backing array in place. -/
def writeAt {α : Type} (mem : Mem α) (id idx : Nat) (x : α) : Mem α :=
  ⟨mem.arrays.set id ((mem.arrays.getD id []).set idx x)⟩

/-- Write consecutive cells of a backing array in place. -/
def writeSeq {α : Type} : Mem α → Nat → Nat → List α → Mem α
  | mem, _, _, [] => mem
  | mem, id, idx, x :: xs => writeSeq (writeAt mem id idx x) id (idx + 1) xs

/-- The Go runtime's capacity growth for a small slice append. -/
def growCap (oldCap needed : Nat) : Nat :=
  if oldCap = 0 then needed
  else if 2 * oldCap < needed then needed
  else 2 * oldCap

/-- Go's `append(s, xs...)`: write into the shared backing array when the
result fits in the capacity, otherwise copy into a freshly allocated
array. -/
def goAppend {α : Type} [Inhabited α] (mem : Mem α) (s : GoSlice) (xs : List α) :
    Mem α × GoSlice :=
  let needed := s.len + xs.length
  if needed ≤ s.cap then
    (writeSeq mem s.arrId s.len xs, { s with len := needed })
  else
    let newCap := growCap s.cap needed
    let content := sliceContents mem s ++ xs ++ List.replicate (newCap - needed) default
    (⟨mem.arrays ++ [content]⟩, ⟨mem.arrays.length, needed, newCap⟩)

/-- `Handler` with its slice headers explicit (`opts`, `w` and `program`
are value-copied by `h2 := *h` and never mutated). -/
structure HandlerRef where
  opts : Options
  attrs : GoSlice
  groups : GoSlice
  program : String

/-- `New`, heap-aware: both slices start as `nil`. -/
def NewRef (o : Options) : HandlerRef :=
  { opts := o, attrs := nilSlice, groups := nilSlice, program := o.program }

/-- `WithAttrs`, heap-aware: `h2 := *h; h2.attrs = append(h2.attrs,
attrs...)`. -/
def WithAttrsRef (mem : Mem Attr) (h : HandlerRef) (attrs : List Attr) :
    Mem Attr × HandlerRef :=
  if attrs.length = 0 then (mem, h)
  else
    let res := goAppend mem h.attrs attrs
    (res.1, { h with attrs := res.2 })

/-- `WithGroup`, heap-aware: `h2 := *h; h2.groups = append(h2.groups,
name)`. -/
def WithGroupRef (mem : Mem String) (h : HandlerRef) (name : String) :
    Mem String × HandlerRef :=
  if name = "" then (mem, h)
  else
    let res := goAppend mem h.groups [name]
    (res.1, { h with groups := res.2 })

/-! ### Map lemmas -/

theorem keysJ_nil : keysJ [] = [] := rfl

theorem keysJ_cons (k : String) (v : JValue) (m : JObj) :
    keysJ ((k, v) :: m) = k :: keysJ m := rfl

theorem lookupJ_setk_self (m : JObj) (k : String) (v : JValue) :
    lookupJ (setk m k v) k = some v := by
  induction m with
  | nil => simp [setk, lookupJ]
  | cons x rest ih =>
      obtain ⟨k', v'⟩ := x
      by_cases h : k' = k
      · simp [setk, h, lookupJ]
      · simp [setk, h, lookupJ, ih]

theorem lookupJ_setk_ne (m : JObj) (k' k : String) (v : JValue) (h : k' ≠ k) :
    lookupJ (setk m k' v) k = lookupJ m k := by
  induction m with
  | nil => simp [setk, lookupJ, h]
  | cons x rest ih =>
      obtain ⟨k1, v1⟩ := x
      by_cases h1 : k1 = k'
      · subst h1; simp [setk, lookupJ, h]
      · simp [setk, h1, lookupJ, ih]

theorem lookupJ_append (xs ys : JObj) (k : String) :
    lookupJ (xs ++ ys) k =
      (match lookupJ xs k with
       | some v => some v
       | none => lookupJ ys k) := by
  induction xs with
  | nil => simp [lookupJ]
  | cons x rest ih =>
      obtain ⟨k', v'⟩ := x
      by_cases h : k' = k <;> simp [lookupJ, h, ih]

theorem lookupJ_append_none (xs ys : JObj) (k : String)
    (h : lookupJ xs k = none) : lookupJ (xs ++ ys) k = lookupJ ys k := by
  rw [lookupJ_append, h]

theorem mem_keysJ_setk (m : JObj) (k a : String) (v : JValue) :
    a ∈ keysJ (setk m k v) ↔ a ∈ keysJ m ∨ a = k := by
  induction m with
  | nil => simp [setk, keysJ]
  | cons x rest ih =>
      obtain ⟨k', v'⟩ := x
      by_cases h : k' = k
      · subst h; simp [setk, keysJ_cons]; tauto
      · simp [setk, h, keysJ_cons, ih]; tauto

theorem nodup_keysJ_setk (m : JObj) (k : String) (v : JValue)
    (h : (keysJ m).Nodup) : (keysJ (setk m k v)).Nodup := by
  induction m with
  | nil => simp [setk, keysJ]
  | cons x rest ih =>
      obtain ⟨k', v'⟩ := x
      rw [keysJ_cons, List.nodup_cons] at h
      obtain ⟨hk', hrest⟩ := h
      by_cases hkk : k' = k
      · subst hkk
        have hs : setk ((k', v') :: rest) k' v = (k', v) :: rest := by
          simp [setk]
        rw [hs, keysJ_cons, List.nodup_cons]
        exact ⟨hk', hrest⟩
      · have hs : setk ((k', v') :: rest) k v = (k', v') :: setk rest k v := by
          simp [setk, hkk]
        rw [hs, keysJ_cons, List.nodup_cons]
        refine ⟨fun hmem => ?_, ih hrest⟩
        rcases (mem_keysJ_setk rest k k' v).mp hmem with hm | hm
        · exact hk' hm
        · exact hkk hm

theorem addAttr_shape (m : JObj) (gs : List String) (a : Attr) :
    addAttr m gs a = m ∨ ∃ k v, addAttr m gs a = setk m k v := by
  unfold addAttr
  split
  · exact Or.inl rfl
  · cases gs with
    | nil => exact Or.inr ⟨a.1, attrValue a.2, rfl⟩
    | cons g gs' => exact Or.inr ⟨g, _, rfl⟩

theorem nodup_keysJ_addAttr (m : JObj) (gs : List String) (a : Attr)
    (h : (keysJ m).Nodup) : (keysJ (addAttr m gs a)).Nodup := by
  rcases addAttr_shape m gs a with heq | ⟨k, v, heq⟩
  · rw [heq]; exact h
  · rw [heq]; exact nodup_keysJ_setk m k v h

theorem nodup_keysJ_foldl_addAttr (l : List Attr) (gs : List String) :
    ∀ m : JObj, (keysJ m).Nodup →
      (keysJ (l.foldl (fun acc a => addAttr acc gs a) m)).Nodup := by
  induction l with
  | nil => intro m h; exact h
  | cons a rest ih =>
      intro m h
      rw [List.foldl_cons]
      exact ih _ (nodup_keysJ_addAttr m gs a h)

theorem mergeInto_nil (p : JObj) : mergeInto p [] = p := rfl

theorem mergeInto_cons (p : JObj) (x : String × JValue) (rest : JObj) :
    mergeInto p (x :: rest) = mergeInto (setk p x.1 x.2) rest := rfl

theorem lookupJ_mergeInto_not_mem (p m : JObj) (k : String)
    (h : k ∉ keysJ m) : lookupJ (mergeInto p m) k = lookupJ p k := by
  induction m generalizing p with
  | nil => rfl
  | cons x rest ih =>
      obtain ⟨k1, v1⟩ := x
      rw [keysJ_cons, List.mem_cons] at h
      push_neg at h
      rw [mergeInto_cons, ih _ h.2]
      exact lookupJ_setk_ne p k1 k v1 (fun hEq => h.1 hEq.symm)

theorem lookupJ_mergeInto_of_lookup (p m : JObj) (k : String) (v : JValue)
    (hnd : (keysJ m).Nodup) (h : lookupJ m k = some v) :
    lookupJ (mergeInto p m) k = some v := by
  induction m generalizing p with
  | nil => simp [lookupJ] at h
  | cons x rest ih =>
      obtain ⟨k1, v1⟩ := x
      rw [keysJ_cons, List.nodup_cons] at hnd
      obtain ⟨hk1, hrest⟩ := hnd
      rw [lookupJ] at h
      by_cases hk : k1 = k
      · rw [if_pos hk] at h
        injection h with h
        subst hk
        subst h
        rw [mergeInto_cons, lookupJ_mergeInto_not_mem _ _ _ hk1]
        exact lookupJ_setk_self p k1 v1
      · rw [if_neg hk] at h
        rw [mergeInto_cons]
        exact ih _ hrest h

/-! ### Path lemmas -/

theorem lookupPath_single (m : JObj) (k : String) :
    lookupPath m [k] = lookupJ m k := rfl

theorem lookupPath_cons (m : JObj) (p : String) (q : List String) (hq : q ≠ []) :
    lookupPath m (p :: q) =
      (match lookupJ m p with
       | some (.jObj o) => lookupPath o q
       | _ => none) := by
  cases q with
  | nil => exact absurd rfl hq
  | cons a b => rfl

theorem lookupPath_nil_obj (q : List String) (hq : q ≠ []) :
    lookupPath [] q = none := by
  cases q with
  | nil => exact absurd rfl hq
  | cons a b => cases b <;> simp [lookupPath, lookupJ]

theorem lookupPath_addAttrPath_self (gs : List String) (m : JObj)
    (k : String) (v : JValue) :
    lookupPath (addAttrPath m gs k v) (gs ++ [k]) = some v := by
  induction gs generalizing m with
  | nil =>
      rw [List.nil_append, addAttrPath, lookupPath_single]
      exact lookupJ_setk_self m k v
  | cons g gs' ih =>
      rw [List.cons_append, addAttrPath,
        lookupPath_cons _ _ _ (by simp),
        lookupJ_setk_self]
      exact ih _

theorem lookupPath_addAttrPath_ne (gs : List String) (m : JObj)
    (k' k : String) (v' : JValue) (h : k' ≠ k) :
    lookupPath (addAttrPath m gs k' v') (gs ++ [k]) = lookupPath m (gs ++ [k]) := by
  induction gs generalizing m with
  | nil =>
      rw [List.nil_append, addAttrPath, lookupPath_single, lookupPath_single]
      exact lookupJ_setk_ne m k' k v' h
  | cons g gs' ih =>
      rw [List.cons_append, addAttrPath,
        lookupPath_cons _ _ _ (by simp),
        lookupPath_cons _ _ _ (by simp),
        lookupJ_setk_self]
      cases hg : lookupJ m g with
      | none =>
          simp only [childObj, hg]
          rw [ih]
          exact lookupPath_nil_obj _ (by simp)
      | some w =>
          cases w with
          | jObj o => simp only [childObj, hg]; rw [ih]
          | jBool c =>
              simp only [childObj, hg]
              rw [ih]
              exact lookupPath_nil_obj _ (by simp)
          | jInt i =>
              simp only [childObj, hg]
              rw [ih]
              exact lookupPath_nil_obj _ (by simp)
          | jNat n =>
              simp only [childObj, hg]
              rw [ih]
              exact lookupPath_nil_obj _ (by simp)
          | jFloat bits =>
              simp only [childObj, hg]
              rw [ih]
              exact lookupPath_nil_obj _ (by simp)
          | jStr s =>
              simp only [childObj, hg]
              rw [ih]
              exact lookupPath_nil_obj _ (by simp)

theorem lookupPath_addAttr_self (m : JObj) (gs : List String) (a : Attr)
    (h : attrIsZero a = false) :
    lookupPath (addAttr m gs a) (gs ++ [a.1]) = some (attrValue a.2) := by
  rw [addAttr, if_neg (by rw [h]; exact Bool.false_ne_true)]
  exact lookupPath_addAttrPath_self gs m a.1 (attrValue a.2)

theorem lookupPath_addAttr_ne (m : JObj) (gs : List String) (a : Attr)
    (k : String) (h : a.1 ≠ k) :
    lookupPath (addAttr m gs a) (gs ++ [k]) = lookupPath m (gs ++ [k]) := by
  rw [addAttr]
  split
  · rfl
  · exact lookupPath_addAttrPath_ne gs m a.1 k (attrValue a.2) h

theorem lookupPath_foldl_addAttr_ne (l : List Attr) (gs : List String)
    (k : String) (h : ∀ p ∈ l, p.1 ≠ k) (m : JObj) :
    lookupPath (l.foldl (fun acc a => addAttr acc gs a) m) (gs ++ [k])
      = lookupPath m (gs ++ [k]) := by
  induction l generalizing m with
  | nil => rfl
  | cons a rest ih =>
      rw [List.foldl_cons,
        ih (fun p hp => h p (List.mem_cons_of_mem a hp)) (addAttr m gs a)]
      exact lookupPath_addAttr_ne m gs a k (h a (List.mem_cons_self a rest))

theorem lookupPath_mergeInto (P R : JObj) (q : List String) (v : JValue)
    (hq : q ≠ []) (hnd : (keysJ R).Nodup) (h : lookupPath R q = some v) :
    lookupPath (mergeInto P R) q = some v := by
  cases q with
  | nil => exact absurd rfl hq
  | cons p rest =>
      cases rest with
      | nil =>
          rw [lookupPath_single] at h ⊢
          exact lookupJ_mergeInto_of_lookup P R p v hnd h
      | cons a b =>
          rw [lookupPath_cons _ _ _ (by simp)] at h ⊢
          cases hR : lookupJ R p with
          | none => rw [hR] at h; exact absurd h (by simp)
          | some w =>
              rw [hR] at h
              cases w
              case jObj o =>
                rw [lookupJ_mergeInto_of_lookup P R p _ hnd hR]
                simpa using h
              all_goals simp at h

/-! ### A normal form for the attribute slice -/

/-- The merged attribute tree of one log call, when an `attributes` entry
is emitted at all: the persistent map alone, the record map alone, or the
record map's top-level bindings copied over the persistent map, matching
the branches of lines 101-130 of `Handle`. -/
def mergedAttributes (h : Handler) (r : Record) : Option JObj :=
  if 0 < h.attrs.length ∨ 0 < h.groups.length then
    some (if 0 < (recordMap h r).length then
            mergeInto (persistentMap h) (recordMap h r)
          else persistentMap h)
  else if 0 < (recordMap h r).length then some (recordMap h r) else none

/-- The `attributes` portion of the attribute slice. -/
def attributesEntry (h : Handler) (r : Record) : JObj :=
  match mergedAttributes h r with
  | some m => [("attributes", .jObj m)]
  | none => []

theorem setLastAttributes_cons_cons (x y : String × JValue) (rest m : JObj) :
    setLastAttributes (x :: y :: rest) m = x :: setLastAttributes (y :: rest) m := rfl

theorem setLastAttributes_append (base p m : JObj) :
    setLastAttributes (base ++ [("attributes", .jObj p)]) m
      = base ++ [("attributes", .jObj (mergeInto p m))] := by
  induction base with
  | nil => simp [setLastAttributes]
  | cons x rest ih =>
      cases rest with
      | nil => simp [setLastAttributes]
      | cons y rest' =>
          rw [List.cons_append, List.cons_append, setLastAttributes_cons_cons,
            ← List.cons_append, ih]
          simp

theorem handleAttrs_eq (h : Handler) (ctx : Option SpanContext) (r : Record) :
    handleAttrs h ctx r
      = sourceAttrs h r ++ traceAttrs h ctx ++ attributesEntry h r := by
  simp only [handleAttrs, attributesEntry, mergedAttributes]
  by_cases hc : 0 < h.attrs.length ∨ 0 < h.groups.length
  · by_cases hr : 0 < (recordMap h r).length
    · rw [if_pos hc, if_pos hc, if_pos hr, if_pos hr,
        if_neg (show ¬(h.attrs.length = 0 ∧ h.groups.length = 0) by omega),
        setLastAttributes_append]
    · rw [if_pos hc, if_pos hc, if_neg hr, if_neg hr]
  · have h0 : h.attrs.length = 0 ∧ h.groups.length = 0 := by omega
    by_cases hr : 0 < (recordMap h r).length
    · rw [if_neg hc, if_neg hc, if_pos hr, if_pos hr, if_pos h0]
    · rw [if_neg hc, if_neg hc, if_neg hr, if_neg hr, List.append_nil]

/-! ### Top-level keys of the emitted object -/

theorem lookupJ_emitted_fixed (h : Handler) (ctx : Option SpanContext)
    (r : Record) (k : String) (hk1 : k ≠ "time") (hk2 : k ≠ "severity")
    (hk3 : k ≠ "msg") :
    lookupJ (emitted h ctx r) k = lookupJ (handleAttrs h ctx r) k := by
  simp [emitted, lookupJ, Ne.symm hk1, Ne.symm hk2, Ne.symm hk3]

theorem lookupJ_sourceAttrs_ne (h : Handler) (r : Record) (k : String)
    (hk : k ≠ "logging.googleapis.com/sourceLocation") :
    lookupJ (sourceAttrs h r) k = none := by
  cases hs : h.opts.addSource with
  | false => simp [sourceAttrs, hs, lookupJ]
  | true =>
      cases hp : r.pc with
      | none => simp [sourceAttrs, hs, hp, lookupJ]
      | some f => simp [sourceAttrs, hs, hp, lookupJ, Ne.symm hk]

theorem lookupJ_traceAttrs_ne (h : Handler) (ctx : Option SpanContext)
    (k : String) (hk1 : k ≠ "logging.googleapis.com/trace")
    (hk2 : k ≠ "logging.googleapis.com/spanId") :
    lookupJ (traceAttrs h ctx) k = none := by
  cases ht : h.opts.addTraceInfo with
  | false => simp [traceAttrs, ht, lookupJ]
  | true =>
      cases hc : ctx with
      | none => simp [traceAttrs, ht, hc, lookupJ]
      | some sc =>
          cases hv : spanCtxIsValid sc with
          | false => simp [traceAttrs, ht, hc, hv, lookupJ]
          | true => simp [traceAttrs, ht, hc, hv, lookupJ, Ne.symm hk1, Ne.symm hk2]

theorem lookupJ_attributesEntry_ne (h : Handler) (r : Record) (k : String)
    (hk : k ≠ "attributes") :
    lookupJ (attributesEntry h r) k = none := by
  unfold attributesEntry
  cases mergedAttributes h r with
  | none => rfl
  | some m => simp [lookupJ, Ne.symm hk]

theorem lookupJ_emitted_attributes (h : Handler) (ctx : Option SpanContext)
    (r : Record) :
    lookupJ (emitted h ctx r) "attributes"
      = (mergedAttributes h r).map (fun m => .jObj m) := by
  rw [lookupJ_emitted_fixed h ctx r _ (by decide) (by decide) (by decide),
    handleAttrs_eq, List.append_assoc,
    lookupJ_append_none _ _ _ (lookupJ_sourceAttrs_ne h r _ (by decide)),
    lookupJ_append_none _ _ _ (lookupJ_traceAttrs_ne h ctx _ (by decide) (by decide))]
  unfold attributesEntry
  cases mergedAttributes h r with
  | none => rfl
  | some m => simp [lookupJ]

theorem lookupJ_emitted_trace (h : Handler) (ctx : Option SpanContext)
    (r : Record) :
    lookupJ (emitted h ctx r) "logging.googleapis.com/trace"
      = lookupJ (traceAttrs h ctx) "logging.googleapis.com/trace" := by
  rw [lookupJ_emitted_fixed h ctx r _ (by decide) (by decide) (by decide),
    handleAttrs_eq, List.append_assoc,
    lookupJ_append_none _ _ _ (lookupJ_sourceAttrs_ne h r _ (by decide)),
    lookupJ_append]
  cases htr : lookupJ (traceAttrs h ctx) "logging.googleapis.com/trace" with
  | none => exact lookupJ_attributesEntry_ne h r "logging.googleapis.com/trace" (by decide)
  | some v => rfl

theorem lookupJ_emitted_spanId (h : Handler) (ctx : Option SpanContext)
    (r : Record) :
    lookupJ (emitted h ctx r) "logging.googleapis.com/spanId"
      = lookupJ (traceAttrs h ctx) "logging.googleapis.com/spanId" := by
  rw [lookupJ_emitted_fixed h ctx r _ (by decide) (by decide) (by decide),
    handleAttrs_eq, List.append_assoc,
    lookupJ_append_none _ _ _ (lookupJ_sourceAttrs_ne h r _ (by decide)),
    lookupJ_append]
  cases htr : lookupJ (traceAttrs h ctx) "logging.googleapis.com/spanId" with
  | none => exact lookupJ_attributesEntry_ne h r "logging.googleapis.com/spanId" (by decide)
  | some v => rfl

/-! ### Concrete example inputs -/

/-- A plain record with no attributes and no resolvable frame. -/
def rNoAttrs : Record :=
  { time := "2024-01-01T12:00:00.000000000Z", level := levelInfo,
    msg := "hello", pc := none, attrs := [] }

/-- `New(w).WithAttrs({x: 1}).WithGroup("g")`: an attribute attached
before entering the group. -/
def c1Handler : Handler :=
  WithGroup (WithAttrs (New defaultOptions) [("x", .vInt64 1)]) "g"

/-! ### Claims -/

/-- C1: the claim states that attributes attached before entering a group
stay outside that group in the output.  The code violates this: `Handle`
inserts every persistent attribute at the handler's full group path at
render time, so for `New(w).WithAttrs({x:1}).WithGroup("g")` the rendered
tree binds `x` under `attributes.g` and has no binding at `attributes.x`.
This theorem evaluates the embedded code at that failing input. -/
theorem c1_preGroup_attr_nested_under_group :
    lookupPath (emitted c1Handler none rNoAttrs) ["attributes", "g", "x"]
      = some (.jInt 1) ∧
    lookupPath (emitted c1Handler none rNoAttrs) ["attributes", "x"] = none :=
  ⟨rfl, rfl⟩

/-- C2 counterexample: a log call whose write to the sink fails, yet
`Handle` returns no error (`nil`) — the write failure is swallowed,
contradicting the claim that `Handle` returns an error exactly when the
write failed. -/
theorem c2_counterexample :
    (Except.error "write failed" : Except String Unit) ≠ .ok () ∧
    (Handle (New defaultOptions) none rNoAttrs (.error "write failed")).2 = none :=
  ⟨fun h => Except.noConfusion h, rfl⟩

/-- C2 amended: `Handle` always returns `nil`, whatever the outcome of the
write to the sink; a sink write failure is never surfaced to the caller. -/
theorem c2_amended_handle_always_nil (h : Handler) (ctx : Option SpanContext)
    (r : Record) (sink : Except String Unit) :
    (Handle h ctx r sink).2 = none := rfl

/-- C5: the severity mapping is total over `Int` levels with
inclusive-lower/exclusive-upper tier bounds; in particular the WARN
threshold itself maps to `WARNING` and `INFO + 1` maps to `INFO`. -/
theorem c5_severity_tiers (level : Int) :
    (levelError ≤ level → levelToSeverity level = "ERROR") ∧
    (levelWarn ≤ level → level < levelError → levelToSeverity level = "WARNING") ∧
    (levelInfo ≤ level → level < levelWarn → levelToSeverity level = "INFO") ∧
    (level < levelInfo → levelToSeverity level = "DEBUG") ∧
    levelToSeverity levelWarn = "WARNING" ∧
    levelToSeverity (levelInfo + 1) = "INFO" := by
  refine ⟨fun h1 => ?_, fun h1 h2 => ?_, fun h1 h2 => ?_, fun h1 => ?_,
    by decide, by decide⟩
  all_goals
    simp only [levelToSeverity, levelError, levelWarn, levelInfo] at *
  all_goals
    split_ifs <;> first | rfl | (exfalso; omega)

/-- C5 witness: level 5 (strictly between the WARN and ERROR thresholds)
maps to `WARNING`. -/
theorem c5_witness : levelToSeverity 5 = "WARNING" :=
  (c5_severity_tiers 5).2.1 (by decide) (by decide)

/-- C6: `Enabled` holds exactly when the level reaches the configured
minimum, and a `Handle` call at a disabled level writes nothing and
returns no error (the inner JSON handler's `Level` gate drops the
record). -/
theorem c6_enabled_gate :
    (∀ (h : Handler) (level : Int), Enabled h level = true ↔ h.opts.level ≤ level) ∧
    (∀ (h : Handler) (ctx : Option SpanContext) (r : Record)
        (sink : Except String Unit),
      Enabled h r.level = false → Handle h ctx r sink = (none, none)) := by
  constructor
  · intro h level
    simp [Enabled]
  · intro h ctx r sink hE
    simp only [Enabled, decide_eq_false_iff_not] at hE
    simp [Handle, hE]

/-- C6 witness: a DEBUG record against the default (INFO) minimum is
dropped. -/
theorem c6_witness :
    Handle (New defaultOptions) none { rNoAttrs with level := levelDebug } (.ok ())
      = (none, none) :=
  c6_enabled_gate.2 (New defaultOptions) none { rNoAttrs with level := levelDebug }
    (.ok ()) (by decide)

/-- The C7 derivation chain, heap-aware.  Three single-attribute
derivations leave the third handler with length 3 and capacity 4, so the
two sibling derivations from it both write their attribute into the same
spare cell of the shared backing array. -/
def c7Mem0 : Mem Attr := ⟨[]⟩

def c7H0 : HandlerRef := NewRef defaultOptions

def c7Step1 := WithAttrsRef c7Mem0 c7H0 [("a", .vInt64 1)]

def c7Step2 := WithAttrsRef c7Step1.1 c7Step1.2 [("b", .vInt64 2)]

def c7Step3 := WithAttrsRef c7Step2.1 c7Step2.2 [("c", .vInt64 3)]

def c7Step4 := WithAttrsRef c7Step3.1 c7Step3.2 [("x", .vInt64 4)]

def c7Step5 := WithAttrsRef c7Step4.1 c7Step3.2 [("y", .vInt64 5)]

/-- C7: the claim states that `WithAttrs`/`WithGroup` never modify any
previously derived handler's attribute sequence.  Under Go's `append`
semantics this fails: after `h3 := h.WithAttrs(a).WithAttrs(b).WithAttrs(c)`
(length 3, capacity 4), the sibling derivations `h4 := h3.WithAttrs(x)`
and `h5 := h3.WithAttrs(y)` write into the same spare cell of the shared
backing array, so the second call changes what `h4` observes: `h4` sees
`[a, b, c, x]` before the sibling call and `[a, b, c, y]` after it.  This
theorem evaluates the heap-aware embedding at that failing input. -/
theorem c7_sibling_interference :
    sliceContents c7Step4.1 c7Step4.2.attrs
      = [("a", .vInt64 1), ("b", .vInt64 2), ("c", .vInt64 3), ("x", .vInt64 4)] ∧
    sliceContents c7Step5.1 c7Step4.2.attrs
      = [("a", .vInt64 1), ("b", .vInt64 2), ("c", .vInt64 3), ("y", .vInt64 5)] ∧
    sliceContents c7Step5.1 c7Step5.2.attrs
      = [("a", .vInt64 1), ("b", .vInt64 2), ("c", .vInt64 3), ("y", .vInt64 5)] :=
  ⟨rfl, rfl, rfl⟩

/-- C9: the value conversion is a total function and maps each kind as
specified — booleans, integers, unsigned integers, floats and strings to
themselves, durations to their canonical textual form, timestamps to
their RFC-3339 nanosecond string, groups to an object with each child
recursively converted (in order, later duplicate keys overwriting
earlier), lazy values to the conversion of their resolved value, and
anything else to its default textual representation. -/
theorem c9_value_conversion_total :
    (∀ b, attrValue (.vBool b) = .jBool b) ∧
    (∀ i, attrValue (.vInt64 i) = .jInt i) ∧
    (∀ n, attrValue (.vUint64 n) = .jNat n) ∧
    (∀ bits, attrValue (.vFloat64 bits) = .jFloat bits) ∧
    (∀ s, attrValue (.vString s) = .jStr s) ∧
    (∀ ns, attrValue (.vDuration ns) = .jStr (durationString ns)) ∧
    (∀ t, attrValue (.vTime t) = .jStr t) ∧
    (∀ attrs, attrValue (.vGroup attrs) = .jObj (groupObj [] attrs)) ∧
    (∀ m, groupObj m [] = m) ∧
    (∀ (m : JObj) (k : String) (v : SValue) rest,
      groupObj m ((k, v) :: rest) = groupObj (setk m k (attrValue v)) rest) ∧
    (∀ v, attrValue (.vLogValuer v) = attrValue v) ∧
    attrValue .vNil = .jStr "<nil>" ∧
    (∀ s, attrValue (.vAny s) = .jStr s) :=
  ⟨fun _ => rfl, fun _ => rfl, fun _ => rfl, fun _ => rfl, fun _ => rfl,
   fun _ => rfl, fun _ => rfl, fun _ => rfl, fun _ => rfl,
   fun _ _ _ _ => rfl, fun _ => rfl, rfl, fun _ => rfl⟩

/-- C3: last-write-wins for a duplicated key.  If the handler carries a
persistent attribute `(k, a)` and the record carries `(k, b)` (with no
later record attribute re-binding `k`), the rendered output binds `k` at
the handler's group path — under the `attributes` wrapper — to the
record-local value `b`; the merge raises no error. -/
theorem c3_last_write_wins (h : Handler) (ctx : Option SpanContext) (r : Record)
    (k : String) (a b : SValue) (us vs : List Attr)
    (hk : k ≠ "") (hp : (k, a) ∈ h.attrs)
    (hrec : r.attrs = us ++ (k, b) :: vs)
    (hvs : ∀ p ∈ vs, p.1 ≠ k) :
    lookupPath (emitted h ctx r) ("attributes" :: (h.groups ++ [k]))
      = some (attrValue b) := by
  have hbeq : (k == "") = false := by simp [hk]
  have hz : attrIsZero (k, b) = false := by simp [attrIsZero, hbeq]
  have hR : lookupPath (recordMap h r) (h.groups ++ [k]) = some (attrValue b) := by
    unfold recordMap
    rw [hrec, List.foldl_append, List.foldl_cons,
      lookupPath_foldl_addAttr_ne vs h.groups k hvs _]
    exact lookupPath_addAttr_self _ h.groups (k, b) hz
  have hRne : recordMap h r ≠ [] := by
    intro h0
    rw [h0, lookupPath_nil_obj _ (by simp)] at hR
    exact Option.noConfusion hR
  have hnd : (keysJ (recordMap h r)).Nodup :=
    nodup_keysJ_foldl_addAttr r.attrs h.groups [] (by simp [keysJ])
  have hA : 0 < h.attrs.length := List.length_pos.mpr (List.ne_nil_of_mem hp)
  have hMA : mergedAttributes h r
      = some (mergeInto (persistentMap h) (recordMap h r)) := by
    unfold mergedAttributes
    rw [if_pos (Or.inl hA), if_pos (List.length_pos.mpr hRne)]
  have hM : lookupPath (mergeInto (persistentMap h) (recordMap h r))
      (h.groups ++ [k]) = some (attrValue b) :=
    lookupPath_mergeInto _ _ _ _ (by simp) hnd hR
  rw [lookupPath_cons _ _ _ (by simp), lookupJ_emitted_attributes, hMA]
  simpa using hM

/-- The C3 witness handler: `New(w).WithAttrs({k: "a"})`. -/
def c3Handler : Handler := WithAttrs (New defaultOptions) [("k", .vString "a")]

/-- The C3 witness record, carrying `{k: "b"}`. -/
def c3Record : Record := { rNoAttrs with attrs := [("k", .vString "b")] }

/-- C3 witness: with persistent `{k: "a"}` and record-local `{k: "b"}`,
the output binds `k` to `"b"`. -/
theorem c3_witness :
    lookupPath (emitted c3Handler none c3Record)
      ("attributes" :: (c3Handler.groups ++ ["k"]))
      = some (attrValue (.vString "b")) :=
  c3_last_write_wins c3Handler none c3Record "k" (.vString "a") (.vString "b")
    [] [] (by decide) (List.mem_singleton.mpr rfl) rfl (by simp)

/-- C4: trace formatting.  With trace info enabled: a valid span and empty
project ID yield the bare lowercase-hex trace ID; a valid span and
non-empty project ID yield `projects/<id>/traces/<hex>`; the span ID key
always holds the bare hex span ID when the span is valid; an invalid or
absent span yields neither key; and `Handle` never returns an error. -/
theorem c4_trace_formatting (h : Handler) (r : Record)
    (ht : h.opts.addTraceInfo = true) :
    (∀ sc : SpanContext, spanCtxIsValid sc = true → h.opts.projectID = "" →
      lookupJ (emitted h (some sc) r) "logging.googleapis.com/trace"
        = some (.jStr (bytesHex sc.traceID))) ∧
    (∀ sc : SpanContext, spanCtxIsValid sc = true → h.opts.projectID ≠ "" →
      lookupJ (emitted h (some sc) r) "logging.googleapis.com/trace"
        = some (.jStr ("projects/" ++ h.opts.projectID ++ "/traces/"
            ++ bytesHex sc.traceID))) ∧
    (∀ sc : SpanContext, spanCtxIsValid sc = true →
      lookupJ (emitted h (some sc) r) "logging.googleapis.com/spanId"
        = some (.jStr (bytesHex sc.spanID))) ∧
    (∀ ctx : Option SpanContext, contextSpanValid ctx = false →
      lookupJ (emitted h ctx r) "logging.googleapis.com/trace" = none ∧
      lookupJ (emitted h ctx r) "logging.googleapis.com/spanId" = none) ∧
    (∀ (ctx : Option SpanContext) (sink : Except String Unit),
      (Handle h ctx r sink).2 = none) := by
  refine ⟨?_, ?_, ?_, ?_, fun _ _ => rfl⟩
  · intro sc hv hpid
    rw [lookupJ_emitted_trace]
    simp [traceAttrs, ht, hv, lookupJ, formatTraceStr, hpid]
  · intro sc hv hpid
    rw [lookupJ_emitted_trace]
    simp [traceAttrs, ht, hv, lookupJ, formatTraceStr, hpid]
  · intro sc hv
    rw [lookupJ_emitted_spanId]
    simp [traceAttrs, ht, hv, lookupJ]
  · intro ctx hcv
    have htr : traceAttrs h ctx = [] := by
      cases ctx with
      | none => simp [traceAttrs, ht]
      | some sc =>
          simp only [contextSpanValid] at hcv
          simp [traceAttrs, ht, hcv]
    exact ⟨by rw [lookupJ_emitted_trace, htr]; rfl,
           by rw [lookupJ_emitted_spanId, htr]; rfl⟩

/-- The C4 witness handler: project ID `proj1`, trace info on. -/
def c4Handler : Handler := New { defaultOptions with projectID := "proj1" }

/-- The C4 witness span context. -/
def c4Span : SpanContext :=
  { traceID := [1, 2, 3, 4, 5, 6, 7, 8, 1, 2, 3, 4, 5, 6, 7, 8],
    spanID := [1, 2, 3, 4, 5, 6, 7, 8] }

/-- C4 witness: with project ID `proj1` and a valid span, the trace key is
project-qualified. -/
theorem c4_witness :
    lookupJ (emitted c4Handler (some c4Span) rNoAttrs) "logging.googleapis.com/trace"
      = some (.jStr ("projects/" ++ c4Handler.opts.projectID ++ "/traces/"
          ++ bytesHex c4Span.traceID)) :=
  (c4_trace_formatting c4Handler rNoAttrs rfl).2.1 c4Span rfl (by decide)

/-- The rendered object is determined by the handler's options, the
record's fixed fields, and the two attribute maps. -/
theorem emitted_congr (h1 h2 : Handler) (ctx : Option SpanContext)
    (r1 r2 : Record) (ho : h1.opts = h2.opts) (ht : r1.time = r2.time)
    (hl : r1.level = r2.level) (hm : r1.msg = r2.msg) (hp : r1.pc = r2.pc)
    (hma : mergedAttributes h1 r1 = mergedAttributes h2 r2) :
    emitted h1 ctx r1 = emitted h2 ctx r2 := by
  unfold emitted
  rw [handleAttrs_eq, handleAttrs_eq]
  unfold sourceAttrs traceAttrs attributesEntry
  rw [ho, ht, hl, hm, hp, hma]

/-- The handler with a zero persistent attribute appended, used to refute
C8. -/
def c8ZeroHandler : Handler := WithAttrs (New defaultOptions) [("", SValue.vNil)]

/-- C8 counterexample: the claim states the output is identical to the one
produced with the zero attribute removed.  With the zero attribute as the
only persistent attribute (no groups, no record attributes), the rendered
object carries a spurious empty `attributes` object that is absent
without it, so the two outputs differ. -/
theorem c8_counterexample :
    emitted c8ZeroHandler none rNoAttrs ≠ emitted (New defaultOptions) none rNoAttrs := by
  intro hEq
  have h1 : lookupJ (emitted c8ZeroHandler none rNoAttrs) "attributes"
      = some (.jObj []) := rfl
  have h2 : lookupJ (emitted (New defaultOptions) none rNoAttrs) "attributes"
      = none := rfl
  rw [hEq, h2] at h1
  exact Option.noConfusion h1

/-- C8 amended: a zero attribute is never inserted into the attribute tree
(`addAttr` is the identity on it); removing a record-local zero attribute
leaves the output unchanged; and removing a persistent zero attribute
leaves the output unchanged whenever another persistent attribute or a
group remains — the only divergence is the spurious empty `attributes`
object of the counterexample, which arises when the zero attribute alone
makes the persistent sequence non-empty. -/
theorem c8_zero_attr_noop :
    (∀ (m : JObj) (gs : List String) (a : Attr), attrIsZero a = true →
      addAttr m gs a = m) ∧
    (∀ (h : Handler) (ctx : Option SpanContext) (r : Record)
        (us vs : List Attr) (a : Attr), attrIsZero a = true →
      emitted h ctx { r with attrs := us ++ a :: vs }
        = emitted h ctx { r with attrs := us ++ vs }) ∧
    (∀ (h : Handler) (ctx : Option SpanContext) (r : Record)
        (us vs : List Attr) (a : Attr), attrIsZero a = true →
      (us ++ vs ≠ [] ∨ h.groups ≠ []) →
      emitted { h with attrs := us ++ a :: vs } ctx r
        = emitted { h with attrs := us ++ vs } ctx r) := by
  refine ⟨fun m gs a ha => by simp [addAttr, ha], ?_, ?_⟩
  · intro h ctx r us vs a ha
    refine emitted_congr h h ctx _ _ rfl rfl rfl rfl rfl ?_
    have hrm : recordMap h { r with attrs := us ++ a :: vs }
        = recordMap h { r with attrs := us ++ vs } := by
      simp [recordMap, List.foldl_append, addAttr, ha]
    unfold mergedAttributes
    rw [hrm]
  · intro h ctx r us vs a ha hcond
    refine emitted_congr _ _ ctx r r rfl rfl rfl rfl rfl ?_
    have hpm : persistentMap { h with attrs := us ++ a :: vs }
        = persistentMap { h with attrs := us ++ vs } := by
      simp [persistentMap, List.foldl_append, addAttr, ha]
    have hrm : recordMap { h with attrs := us ++ a :: vs } r
        = recordMap { h with attrs := us ++ vs } r := rfl
    have c1 : 0 < (us ++ a :: vs).length ∨ 0 < h.groups.length := by
      left; simp
    have c2 : 0 < (us ++ vs).length ∨ 0 < h.groups.length := by
      rcases hcond with hne | hne
      · exact Or.inl (List.length_pos.mpr hne)
      · exact Or.inr (List.length_pos.mpr hne)
    unfold mergedAttributes
    rw [hrm, hpm, if_pos c1, if_pos c2]

/-- C8 witness: removing the zero attribute next to a surviving persistent
attribute leaves the output unchanged. -/
theorem c8_witness :
    emitted { New defaultOptions with attrs := [("p", .vString "q"), ("", SValue.vNil)] }
        none rNoAttrs
      = emitted { New defaultOptions with attrs := [("p", .vString "q")] } none rNoAttrs :=
  c8_zero_attr_noop.2.2 (New defaultOptions) none rNoAttrs
    [("p", .vString "q")] [] ("", SValue.vNil) rfl (by simp)

/-- Every entry of the source-location slice carries the source-location
key. -/
theorem mem_sourceAttrs_key (h : Handler) (r : Record) (k : String) (v : JValue)
    (hm : (k, v) ∈ sourceAttrs h r) :
    k = "logging.googleapis.com/sourceLocation" := by
  cases hs : h.opts.addSource with
  | false => simp [sourceAttrs, hs] at hm
  | true =>
      cases hp : r.pc with
      | none => simp [sourceAttrs, hs, hp] at hm
      | some f =>
          simp [sourceAttrs, hs, hp] at hm
          exact hm.1

/-- Every entry of the trace slice carries one of the two trace keys. -/
theorem mem_traceAttrs_key (h : Handler) (ctx : Option SpanContext)
    (k : String) (v : JValue) (hm : (k, v) ∈ traceAttrs h ctx) :
    k = "logging.googleapis.com/trace" ∨ k = "logging.googleapis.com/spanId" := by
  cases ht : h.opts.addTraceInfo with
  | false => simp [traceAttrs, ht] at hm
  | true =>
      cases ctx with
      | none => simp [traceAttrs, ht] at hm
      | some sc =>
          cases hv : spanCtxIsValid sc with
          | false => simp [traceAttrs, ht, hv] at hm
          | true =>
              simp [traceAttrs, ht, hv] at hm
              rcases hm with ⟨h1, _⟩ | ⟨h1, _⟩
              · exact Or.inl h1
              · exact Or.inr h1

/-- Every entry of the attributes slice carries the `attributes` key. -/
theorem mem_attributesEntry_key (h : Handler) (r : Record) (k : String)
    (v : JValue) (hm : (k, v) ∈ attributesEntry h r) : k = "attributes" := by
  unfold attributesEntry at hm
  cases hx : mergedAttributes h r with
  | none => rw [hx] at hm; simp at hm
  | some m =>
      rw [hx] at hm
      simp at hm
      exact hm.1

/-- C10: every top-level key of the rendered object is one of the fixed
keys or the `attributes` wrapper (merged attributes never surface at top
level); whenever the handler carries persistent attributes or groups or
the record produces attribute bindings, an `attributes` object is
present; and with no persistent attributes, no groups and no record
attributes, no `attributes` key appears. -/
theorem c10_attributes_wrapper (h : Handler) (ctx : Option SpanContext)
    (r : Record) :
    (∀ k v, (k, v) ∈ emitted h ctx r →
      k = "time" ∨ k = "severity" ∨ k = "msg" ∨
      k = "logging.googleapis.com/sourceLocation" ∨
      k = "logging.googleapis.com/trace" ∨
      k = "logging.googleapis.com/spanId" ∨ k = "attributes") ∧
    ((0 < h.attrs.length ∨ 0 < h.groups.length ∨ 0 < (recordMap h r).length) →
      ∃ m, lookupJ (emitted h ctx r) "attributes" = some (.jObj m)) ∧
    (h.attrs = [] → h.groups = [] → r.attrs = [] →
      lookupJ (emitted h ctx r) "attributes" = none) := by
  refine ⟨?_, ?_, ?_⟩
  · intro k v hmem
    unfold emitted at hmem
    rw [handleAttrs_eq] at hmem
    rcases List.mem_append.mp hmem with hmem | hmem
    · simp at hmem
      rcases hmem with ⟨h1, _⟩ | ⟨h1, _⟩ | ⟨h1, _⟩ <;> tauto
    · rcases List.mem_append.mp hmem with hmem | hmem
      · rcases List.mem_append.mp hmem with hmem | hmem
        · exact Or.inr (Or.inr (Or.inr (Or.inl (mem_sourceAttrs_key h r k v hmem))))
        · rcases mem_traceAttrs_key h ctx k v hmem with h1 | h1 <;> tauto
      · exact Or.inr (Or.inr (Or.inr (Or.inr (Or.inr (Or.inr
          (mem_attributesEntry_key h r k v hmem))))))
  · intro hcond
    rw [lookupJ_emitted_attributes]
    unfold mergedAttributes
    rcases hcond with hc | hc | hc
    · rw [if_pos (Or.inl hc)]; exact ⟨_, rfl⟩
    · rw [if_pos (Or.inr hc)]; exact ⟨_, rfl⟩
    · by_cases hc2 : 0 < h.attrs.length ∨ 0 < h.groups.length
      · rw [if_pos hc2]; exact ⟨_, rfl⟩
      · rw [if_neg hc2, if_pos hc]; exact ⟨_, rfl⟩
  · intro ha hg hrec
    rw [lookupJ_emitted_attributes]
    unfold mergedAttributes
    rw [if_neg (by simp [ha, hg]), if_neg (by simp [recordMap, hrec])]
    rfl

/-- C10 witness: the bare handler with an attribute-free record emits no
`attributes` key. -/
theorem c10_witness :
    lookupJ (emitted (New defaultOptions) none rNoAttrs) "attributes" = none :=
  (c10_attributes_wrapper (New defaultOptions) none rNoAttrs).2.2 rfl rfl rfl

end Sloggcloud
